import Mathlib

set_option maxRecDepth 40000

/-!
A verification development for climate.c: a shallow embedding of the
streaming per-state climate aggregation program, together with theorems
about its observable behaviour.

Modelling conventions:
  - C double is modelled by the rationals: every numeric literal in the
    TDV inputs is an exact decimal, and no claim here depends on binary
    floating-point rounding.
  - unsigned / int counters are modelled by Nat / Int; the inputs the
    theorems range over stay far below every machine-width bound, so
    wrap-around is elided.
  - the process-killing branches (exit on the 51st state, and the NULL
    dereference reached when strtok runs out of tokens on a malformed
    line) are modelled by an error monad: a run either completes with the
    final table or dies with the corresponding fatal outcome.
-/

namespace Climate

/-- Tokenizer modelling the repeated strtok(line, "\t\n") calls: the maximal
runs of characters other than tab and newline, in order; empty runs are
skipped, exactly as strtok skips consecutive delimiters. The accumulator
holds the current run reversed. -/
def tokensAux : List Char → List Char → List String
  | [], cur => if cur.isEmpty then [] else [String.mk cur.reverse]
  | c :: cs, cur =>
    if c = '\t' ∨ c = '\n' then
      if cur.isEmpty then tokensAux cs []
      else String.mk cur.reverse :: tokensAux cs []
    else tokensAux cs (c :: cur)

/-- All strtok tokens of one line. -/
def tokens (line : String) : List String := tokensAux line.toList []

/-- Consume leading decimal digits: value so far, number of digits read,
remaining characters. -/
def readDigits : List Char → ℕ → ℕ → ℕ × ℕ × List Char
  | [], v, n => (v, n, [])
  | c :: cs, v, n =>
    if c.isDigit then readDigits cs (10 * v + (c.toNat - 48)) (n + 1)
    else (v, n, c :: cs)

/-- Skip leading spaces, as the C numeric conversions do. -/
def skipSpaces : List Char → List Char
  | [] => []
  | c :: cs => if c = ' ' then skipSpaces cs else c :: cs

/-- Exact rational addition written with the evaluable smart constructor
mkRat (the registered addition of the rationals is flagged to never unfold,
which would block every concrete run of the model); qadd_eq identifies it
with that addition. -/
def qadd (a b : ℚ) : ℚ :=
  mkRat (a.num * b.den + b.num * a.den) (a.den * b.den)

/-- Model of C atof restricted to the shapes occurring in TDV data:
optional sign, digits, optional fractional part, yielding exactly
sign * (intPart + fracPart / 10 ^ fracDigits). A token with no leading
numeric text converts to 0, as atof does. Exponent and hexadecimal forms
do not occur in the inputs considered and are elided. -/
def atofQ (s : String) : ℚ :=
  let cs := skipSpaces s.toList
  let sgn : ℤ × List Char :=
    match cs with
    | '-' :: r => (-1, r)
    | '+' :: r => (1, r)
    | _ => (1, cs)
  let ip := readDigits sgn.2 0 0
  match ip.2.2 with
  | '.' :: r =>
    let fp := readDigits r 0 0
    mkRat (sgn.1 * ((ip.1 : ℤ) * (10 : ℤ) ^ fp.2.1 + (fp.1 : ℤ))) ((10 : ℕ) ^ fp.2.1)
  | _ => mkRat (sgn.1 * (ip.1 : ℤ)) 1

/-- Model of C atoi / atoll on the decimal tokens occurring in TDV data:
optional sign then digits; no digits converts to 0. -/
def atoiZ (s : String) : ℤ :=
  let cs := skipSpaces s.toList
  let sgn : ℤ × List Char :=
    match cs with
    | '-' :: r => (-1, r)
    | '+' :: r => (1, r)
    | _ => (1, cs)
  let ip := readDigits sgn.2 0 0
  sgn.1 * (ip.1 : ℤ)

/-- atoll, used for the millisecond timestamps; same decimal conversion. -/
def atollZ (s : String) : ℤ := atoiZ s

/-- The struct climate_info of climate.c. The field avgHumidity is, despite
its name, a running sum (so are temperature, cloud and pressure); geoLocation
is the pointer the C code offsets by the first character of each geohash
token, modelled by the accumulated offset. -/
structure climate_info where
  code : String
  num_records : ℕ
  avgHumidity : ℚ
  temperature : ℚ
  maxTemp : ℚ
  maxTempTimestamp : ℤ
  minTemp : ℚ
  minTempTimestamp : ℤ
  lightning : ℤ
  snow : ℤ
  cloud : ℚ
  geoLocation : ℤ
  pressure : ℚ
deriving DecidableEq

/-- The capacity bound: #define NUM_STATES 50. -/
def NUM_STATES : ℕ := 50

/-- fgets is called with a buffer of this size, so it reads at most
line_sz - 1 = 99 characters per call. -/
def line_sz : ℕ := 100

/-- A freshly created entry: calloc zeroes every field, then the code is
copied in and the extremum sentinels are set (minTemp = -9999,
maxTemp = 9999, exactly as in analyze_file). -/
def initInfo (codex : String) : climate_info :=
  { code := codex
    num_records := 0
    avgHumidity := 0
    temperature := 0
    maxTemp := 9999
    maxTempTimestamp := 0
    minTemp := -9999
    minTempTimestamp := 0
    lightning := 0
    snow := 0
    cloud := 0
    geoLocation := 0
    pressure := 0 }

/-- The eight tokens following the state code on one line, as raw strings. -/
structure rawFields where
  ts : String
  geo : String
  hum : String
  sn : String
  cl : String
  li : String
  pr : String
  te : String
deriving DecidableEq

/-- One iteration of the per-line update block of analyze_file on an entry:
increment num_records, accumulate the numeric fields, then run the
min / else-if max comparison against the current extrema, with the
timestamp recorded alongside whichever extremum is written. -/
def foldRecord (ci : climate_info) (f : rawFields) : climate_info :=
  let temp := atofQ f.te
  { ci with
    num_records := ci.num_records + 1
    geoLocation := ci.geoLocation + ((f.geo.toList.headD (Char.ofNat 0)).toNat : ℤ)
    avgHumidity := qadd ci.avgHumidity (atofQ f.hum)
    snow := ci.snow + atoiZ f.sn
    cloud := qadd ci.cloud (atofQ f.cl)
    lightning := ci.lightning + atoiZ f.li
    pressure := qadd ci.pressure (atofQ f.pr)
    temperature := qadd ci.temperature temp
    minTemp := if temp < ci.minTemp then temp else ci.minTemp
    minTempTimestamp := if temp < ci.minTemp then atollZ f.ts else ci.minTempTimestamp
    maxTemp := if ¬ temp < ci.minTemp ∧ ci.maxTemp < temp then temp else ci.maxTemp
    maxTempTimestamp :=
      if ¬ temp < ci.minTemp ∧ ci.maxTemp < temp then atollZ f.ts
      else ci.maxTempTimestamp }

/-- compareOrder of climate.c: the position of the entry carrying a given
code, none when absent (the C function returns -1). The C array scan over
the non-NULL prefix is the scan of the modelled list. -/
def compareOrder : List climate_info → String → Option ℕ
  | [], _ => none
  | ci :: rest, codex =>
    if ci.code = codex then some 0 else (compareOrder rest codex).map (· + 1)

/-- The codes of the table, in array order. -/
def codes (states : List climate_info) : List String :=
  states.map climate_info.code

/-- Fold one record into the table: the entry found by compareOrder is
updated in place; when the code is new the entry is created (initInfo) and
appended at index currentStates, i.e. at the end. -/
def foldInto (states : List climate_info) (codex : String) (f : rawFields) :
    List climate_info :=
  match states with
  | [] => [foldRecord (initInfo codex) f]
  | ci :: rest =>
    if ci.code = codex then foldRecord ci f :: rest
    else ci :: foldInto rest codex f

/-- The two fatal outcomes of a run: capacity is the exit(EXIT_FAILURE)
taken when a 51st state would be added; nullField is the NULL returned by
strtok on a line with too few fields, which the C code dereferences
(undefined behaviour that kills the process). -/
inductive CErr where
  | capacity : CErr
  | nullField : CErr
deriving DecidableEq

/-- The state code and the eight field tokens of one line, when the line
has at least nine tokens; tokens past the ninth are never requested by the
C code and are ignored. -/
def fieldsOf (line : String) : Option (String × rawFields) :=
  match tokens line with
  | codex :: ts :: geo :: hum :: sn :: cl :: li :: pr :: te :: _ =>
    some (codex, ⟨ts, geo, hum, sn, cl, li, pr, te⟩)
  | _ => none

/-- The first token of a line, used as the state code. -/
def firstCode (line : String) : Option String := (tokens line).head?

/-- The body of the fgets loop of analyze_file for one line: take the first
token as the state code (none: strtok returned NULL and the strcmp inside
compareOrder dereferences it); when the code is new and the table already
holds NUM_STATES entries, exit with the capacity error; otherwise fold the
record in, which requires the remaining eight tokens to exist. -/
def processLine (states : List climate_info) (line : String) :
    Except CErr (List climate_info) :=
  match (tokens line).head? with
  | none => .error .nullField
  | some codex =>
    if compareOrder states codex = none ∧ NUM_STATES ≤ states.length then
      .error .capacity
    else
      match fieldsOf line with
      | some (c, f) => .ok (foldInto states c f)
      | none => .error .nullField

/-- Run the per-line body over a list of lines, threading the table. -/
def analyzeLines (states : List climate_info) :
    List String → Except CErr (List climate_info)
  | [] => .ok states
  | l :: ls =>
    match processLine states l with
    | .ok s' => analyzeLines s' ls
    | .error e => .error e

/-- One fgets call on a buffer with n free character slots: stop after a
newline (kept in the buffer) or when the buffer is full. Returns the chunk
read and the rest of the stream. -/
def takeLine : ℕ → List Char → List Char × List Char
  | _, [] => ([], [])
  | 0, cs => ([], cs)
  | Nat.succ n, c :: cs =>
    if c = '\n' then ([c], cs)
    else
      let p := takeLine n cs
      (c :: p.1, p.2)

/-- The sequence of chunks fgets(line, line_sz, file) delivers for a file
content. Fuel bounds the number of iterations; every call consumes at
least one character, so content length is always enough fuel. -/
def fgetsChunksF : ℕ → List Char → List (List Char)
  | 0, _ => []
  | _ + 1, [] => []
  | fuel + 1, c :: rest =>
    (takeLine (line_sz - 1) (c :: rest)).1 ::
      fgetsChunksF fuel (takeLine (line_sz - 1) (c :: rest)).2

/-- All chunks fgets reads from a content stream. -/
def fgetsChunks (cs : List Char) : List (List Char) :=
  fgetsChunksF cs.length cs

/-- The buffer contents handed to the loop body, as strings. -/
def chunkLines (content : String) : List String :=
  (fgetsChunks content.toList).map (fun l => String.mk l)

/-- analyze_file of climate.c: every fgets chunk is run through the
per-line body. -/
def analyze_file (states : List climate_info) (content : String) :
    Except CErr (List climate_info) :=
  analyzeLines states (chunkLines content)

/-- The loop of main over the argument files; none stands for a path fopen
rejects: the C code prints the 1-based argument index to stderr and
continues with the next file. The returned list collects those indices. -/
def mainLoop (states : List climate_info) (idx : ℕ) :
    List (Option String) → List ℕ × Except CErr (List climate_info)
  | [] => ([], .ok states)
  | none :: rest =>
    let r := mainLoop states (idx + 1) rest
    (idx :: r.1, r.2)
  | some content :: rest =>
    match analyze_file states content with
    | .ok s' => mainLoop s' (idx + 1) rest
    | .error e => ([], .error e)

/-- main of climate.c on a list of already-opened-or-failed files:
the reported unopenable-file indices and the outcome of aggregation. -/
def runMain (files : List (Option String)) :
    List ℕ × Except CErr (List climate_info) :=
  mainLoop [] 1 files

/-- The 1-based positions of the unopenable files. -/
def badIdxFrom (idx : ℕ) : List (Option String) → List ℕ
  | [] => []
  | none :: rest => idx :: badIdxFrom (idx + 1) rest
  | some _ :: rest => badIdxFrom (idx + 1) rest

/-- The 1-based positions of the unopenable files among the arguments. -/
def badIndices (files : List (Option String)) : List ℕ := badIdxFrom 1 files

/-- The line stream the aggregation actually sees: the fgets chunks of the
openable files, in argument order; unopenable files contribute nothing. -/
def inputLines : List (Option String) → List String
  | [] => []
  | none :: rest => inputLines rest
  | some s :: rest => chunkLines s ++ inputLines rest

/-- One row of the report print_report emits for a state, with the exact
arithmetic performed on the accumulator at print time; maxTempOn and
minTempOn hold the seconds value handed to ctime. -/
structure stateReport where
  code : String
  numRecords : ℕ
  avgHumidity : ℚ
  avgTemperature : ℚ
  maxTemperature : ℚ
  maxTempOn : ℤ
  minTemperature : ℚ
  minTempOn : ℤ
  lightningStrikes : ℤ
  snowRecords : ℤ
  avgCloud : ℚ
deriving DecidableEq

/-- The arithmetic of the per-state block of print_report. -/
def reportOf (ci : climate_info) : stateReport :=
  { code := ci.code
    numRecords := ci.num_records
    avgHumidity := ci.avgHumidity / (ci.num_records : ℚ)
    avgTemperature := ci.temperature / (ci.num_records : ℚ) * (1.8 : ℚ) - (459.67 : ℚ)
    maxTemperature := ci.maxTemp * (1.8 : ℚ) - (459.67 : ℚ)
    maxTempOn := ci.maxTempTimestamp / 1000
    minTemperature := ci.minTemp * (1.8 : ℚ) - (459.67 : ℚ)
    minTempOn := ci.minTempTimestamp / 1000
    lightningStrikes := ci.lightning
    snowRecords := ci.snow
    avgCloud := ci.cloud / (ci.num_records : ℚ) }

/-- print_report of climate.c: the leading States found line (the codes in
table order) and the per-state blocks, in the same table order. -/
def print_report (states : List climate_info) :
    List String × List stateReport :=
  (states.map climate_info.code, states.map reportOf)

/-- Insertion-order accumulation of a code list: a seen code leaves the
accumulator unchanged, a new one is appended. -/
def addCode (acc : List String) (c : String) : List String :=
  if c ∈ acc then acc else acc ++ [c]

/-- The distinct state codes of a line stream, in first-seen order. -/
def distinctCodes (lines : List String) : List String :=
  (lines.filterMap firstCode).foldl addCode []

/-- The lines of a stream whose state code is a given code. -/
def linesFor (lines : List String) (c : String) : List String :=
  lines.filter (fun l => firstCode l == some c)

/-- The entry of the table carrying a given code, if any. -/
def entryFor : List climate_info → String → Option climate_info
  | [], _ => none
  | ci :: rest, c => if ci.code = c then some ci else entryFor rest c

/-- The humidity value a line contributes (0 for an unparseable line). -/
def lineHum (line : String) : ℚ :=
  (fieldsOf line).elim 0 (fun p => atofQ p.2.hum)

/-- The temperature value a line contributes (0 for an unparseable line). -/
def lineTemp (line : String) : ℚ :=
  (fieldsOf line).elim 0 (fun p => atofQ p.2.te)

instance {ε α : Type} [DecidableEq ε] [DecidableEq α] : DecidableEq (Except ε α) := fun
  | .error e, .error e' => decidable_of_iff (e = e') (by simp)
  | .error _, .ok _ => isFalse (by simp)
  | .ok _, .error _ => isFalse (by simp)
  | .ok a, .ok a' => decidable_of_iff (a = a') (by simp)

/-- The table a run ended with, for runs known to have completed. -/
def tableOf (r : Except CErr (List climate_info)) : List climate_info :=
  r.toOption.getD []

/-- A well-formed observation line for state TN. -/
def tnLine : String := "TN\t800000000\tgeo\t50.0\t0\t60.0\t1\t1000.0\t290.0"

/-- A second well-formed observation line for state TN. -/
def tnLine2 : String := "TN\t900000000\tgeo\t52.0\t1\t61.0\t0\t1001.0\t291.5"

/-- A well-formed observation line for state WA. -/
def waLine : String := "WA\t2000\tgeohash\t70.0\t1\t30.0\t0\t101325.0\t300.0"

/-- A second well-formed observation line for state WA. -/
def waLine2 : String := "WA\t2500\tgeo2\t71.0\t0\t31.0\t1\t101000.0\t301.0"

/-- A well-formed observation line for state OR. -/
def orLine : String := "OR\t3000\tg\t10.0\t0\t20.0\t0\t99000.0\t280.5"

/-- A line with only five tab-separated fields. -/
def shortLine : String := "TN\t1000\tgeo\t50.0\t0"

/-- 51 distinct one-character state codes. -/
def code51 : List Char :=
  "ABCDEFGHIJKLMNOPQRSTUVWXYZabcdefghijklmnopqrstuvwxy".toList

/-- 51 well-formed lines carrying 51 distinct state codes. -/
def big51 : List String :=
  code51.map (fun c => String.mk [c] ++ "\t1\tg\t1\t0\t1\t0\t1\t1")

/-- A single input file whose lines carry codes in the order WA, TN, WA. -/
def c4files : List (Option String) :=
  [some (waLine ++ "\n" ++ tnLine ++ "\n" ++ waLine2 ++ "\n")]

/-- The final table of the WA, TN, WA run. -/
def c4table : List climate_info := tableOf (runMain c4files).2

/-- A three-line single-file stream with two TN records and one WA record. -/
def c3exLines : List String := [tnLine, waLine, tnLine2]

/-- The final table of the c3exLines run. -/
def c3exTable : List climate_info := tableOf (analyzeLines [] c3exLines)

/-- The TN entry of that table. -/
def c3exEntry : climate_info := c3exTable.headD (initInfo "")

/-- Arguments with an unopenable second file between two openable ones. -/
def c8files : List (Option String) :=
  [some (orLine ++ "\n"), none, some (tnLine ++ "\n")]

/-- The final table of the c8files run. -/
def c8table : List climate_info := tableOf (runMain c8files).2

/-- A one-file argument list with one TN and one WA record. -/
def c9files : List (Option String) :=
  [some (tnLine ++ "\n" ++ waLine ++ "\n"), none]

/-- The final table of the c9files run. -/
def c9table : List climate_info := tableOf (runMain c9files).2

/-- The TN entry of the c9files run. -/
def c9entry : climate_info := c9table.headD (initInfo "")

/-- The first 99 characters of the long physical lines below: a complete
9-field AB observation whose geohash is padded to make the fgets buffer
fill up exactly at the end of the temperature field. -/
def longHead : String :=
  "AB\t5\t" ++ String.mk (List.replicate 74 'g') ++ "\t1.0\t0\t2.0\t1\t3.0\t4.0"

/-- A 127-character physical line (one trailing newline): the second fgets
chunk is itself a complete 9-field CD observation. -/
def longGoodLine : String :=
  longHead ++ "CD\t6\tg\t1.0\t0\t2.0\t0\t3.0\t7.0\n"

/-- A 100-character physical line (one trailing newline): the second fgets
chunk consists of the newline alone. -/
def longBadLine : String := longHead ++ "\n"


/-- The first entry of the two-record table of the long-line run. -/
def c10a : climate_info :=
  (tableOf (analyze_file [] longGoodLine)).headD (initInfo "")

/-- The second entry of the two-record table of the long-line run. -/
def c10b : climate_info :=
  ((tableOf (analyze_file [] longGoodLine)).drop 1).headD (initInfo "")

/-! Section 1: arithmetic bridge and projection lemmas -/

lemma qadd_eq (a b : ℚ) : qadd a b = a + b := by
  unfold qadd
  rw [Rat.add_def, Rat.normalize_eq_mkRat]

@[simp] lemma foldRecord_code (ci : climate_info) (f : rawFields) :
    (foldRecord ci f).code = ci.code := rfl

@[simp] lemma foldRecord_num_records (ci : climate_info) (f : rawFields) :
    (foldRecord ci f).num_records = ci.num_records + 1 := rfl

@[simp] lemma foldRecord_avgHumidity (ci : climate_info) (f : rawFields) :
    (foldRecord ci f).avgHumidity = ci.avgHumidity + atofQ f.hum := by
  show qadd _ _ = _
  rw [qadd_eq]

@[simp] lemma foldRecord_temperature (ci : climate_info) (f : rawFields) :
    (foldRecord ci f).temperature = ci.temperature + atofQ f.te := by
  show qadd _ _ = _
  rw [qadd_eq]

@[simp] lemma initInfo_code (c : String) : (initInfo c).code = c := rfl

@[simp] lemma initInfo_num_records (c : String) : (initInfo c).num_records = 0 := rfl

@[simp] lemma initInfo_avgHumidity (c : String) : (initInfo c).avgHumidity = 0 := rfl

@[simp] lemma initInfo_temperature (c : String) : (initInfo c).temperature = 0 := rfl

/-! Section 2: codes / compareOrder / addCode -/

@[simp] lemma codes_nil : codes [] = [] := rfl

@[simp] lemma codes_cons (ci : climate_info) (rest : List climate_info) :
    codes (ci :: rest) = ci.code :: codes rest := rfl

@[simp] lemma codes_length (s : List climate_info) : (codes s).length = s.length :=
  List.length_map _ _

lemma compareOrder_eq_none (s : List climate_info) (c : String) :
    compareOrder s c = none ↔ c ∉ codes s := by
  induction s with
  | nil => simp [compareOrder]
  | cons ci rest ih =>
    by_cases h : ci.code = c
    · simp [compareOrder, h]
    · simp [compareOrder, h, ih, Ne.symm h]

lemma length_addCode_of_mem {acc : List String} {c : String} (h : c ∈ acc) :
    (addCode acc c).length = acc.length := by
  simp [addCode, h]

lemma length_addCode_of_not_mem {acc : List String} {c : String} (h : c ∉ acc) :
    (addCode acc c).length = acc.length + 1 := by
  simp [addCode, h]

lemma le_length_addCode (acc : List String) (c : String) :
    acc.length ≤ (addCode acc c).length := by
  by_cases h : c ∈ acc
  · simp [addCode, h]
  · simp [addCode, h]

lemma le_length_foldl_addCode (cs : List String) :
    ∀ acc : List String, acc.length ≤ (cs.foldl addCode acc).length := by
  induction cs with
  | nil => intro acc; simp
  | cons c rest ih =>
    intro acc
    exact le_trans (le_length_addCode acc c) (ih (addCode acc c))

lemma nodup_addCode {acc : List String} (h : acc.Nodup) (c : String) :
    (addCode acc c).Nodup := by
  by_cases hc : c ∈ acc
  · simpa [addCode, hc] using h
  · simp only [addCode, hc, if_false]
    exact List.Nodup.append h (List.nodup_singleton c) (by simpa using hc)

lemma nodup_foldl_addCode (cs : List String) :
    ∀ acc : List String, acc.Nodup → (cs.foldl addCode acc).Nodup := by
  induction cs with
  | nil => intro acc h; simpa using h
  | cons c rest ih => intro acc h; exact ih _ (nodup_addCode h c)

/-! Section 3: foldInto lemmas -/

lemma codes_foldInto (s : List climate_info) (c : String) (f : rawFields) :
    codes (foldInto s c f) = addCode (codes s) c := by
  induction s with
  | nil => simp [foldInto, addCode]
  | cons ci rest ih =>
    by_cases h : ci.code = c
    · simp [foldInto, h, addCode]
    · by_cases hm : c ∈ codes rest
      · simp [foldInto, h, ih, addCode, hm, Ne.symm h]
      · simp [foldInto, h, ih, addCode, hm, Ne.symm h]

lemma entryFor_foldInto (s : List climate_info) (c c' : String) (f : rawFields) :
    entryFor (foldInto s c f) c' =
      if c' = c then some (foldRecord ((entryFor s c).getD (initInfo c)) f)
      else entryFor s c' := by
  induction s with
  | nil =>
    by_cases h : c' = c
    · simp [foldInto, entryFor, h]
    · simp [foldInto, entryFor, h, Ne.symm h]
  | cons ci rest ih =>
    by_cases h : ci.code = c
    · by_cases h' : c' = c
      · simp [foldInto, entryFor, h, h']
      · have h2 : ¬ ci.code = c' := by rw [h]; exact fun hc => h' hc.symm
        have h3 : ¬ c = c' := fun hc => h' hc.symm
        simp [foldInto, entryFor, h, h', h2, h3]
    · by_cases h2 : ci.code = c'
      · have : ¬ c' = c := fun hc => h (h2.trans hc)
        simp [foldInto, entryFor, h, h2, this]
      · simp [foldInto, entryFor, h, h2, ih]

lemma map_sum_foldInto {M : Type} [AddCommMonoid M] (g : climate_info → M)
    (v : rawFields → M) (hinit : ∀ c, g (initInfo c) = 0)
    (hstep : ∀ ci f, g (foldRecord ci f) = g ci + v f)
    (s : List climate_info) (c : String) (f : rawFields) :
    ((foldInto s c f).map g).sum = (s.map g).sum + v f := by
  induction s with
  | nil => simp [foldInto, hstep, hinit]
  | cons ci rest ih =>
    by_cases h : ci.code = c
    · simp [foldInto, h, hstep]
      abel
    · simp [foldInto, h, ih]
      abel

lemma mem_foldInto {ci' : climate_info} {s : List climate_info} {c : String}
    {f : rawFields} (h : ci' ∈ foldInto s c f) :
    ci' ∈ s ∨ ∃ b, ci' = foldRecord b f := by
  induction s with
  | nil =>
    right
    simp [foldInto] at h
    exact ⟨initInfo c, h⟩
  | cons ci rest ih =>
    by_cases hc : ci.code = c
    · simp [foldInto, hc] at h
      rcases h with h | h
      · exact Or.inr ⟨_, h⟩
      · exact Or.inl (List.mem_cons_of_mem _ h)
    · simp [foldInto, hc] at h
      rcases h with h | h
      · exact Or.inl (by simp [h])
      · rcases ih h with h' | h'
        · exact Or.inl (List.mem_cons_of_mem _ h')
        · exact Or.inr h'

/-! Section 4: processLine characterizations -/

lemma fieldsOf_firstCode {line : String} {c : String} {f : rawFields}
    (h : fieldsOf line = some (c, f)) : firstCode line = some c := by
  unfold fieldsOf at h
  unfold firstCode
  split at h
  next codex ts geo hum sn cl li pr te rest heq =>
    rw [heq]
    simp only [Option.some.injEq, Prod.mk.injEq] at h
    simp [h.1]
  next => exact absurd h (by simp)

lemma processLine_ok_elim {states s' : List climate_info} {line : String}
    (h : processLine states line = .ok s') :
    ∃ c f, fieldsOf line = some (c, f) ∧ firstCode line = some c ∧
      ¬ (compareOrder states c = none ∧ NUM_STATES ≤ states.length) ∧
      s' = foldInto states c f := by
  unfold processLine at h
  split at h
  next => exact absurd h (by simp)
  next codex heq =>
    split at h
    next => exact absurd h (by simp)
    next hcond =>
      split at h
      next c f heq2 =>
        have hfc : firstCode line = some c := fieldsOf_firstCode heq2
        have hcc : codex = c := by
          unfold firstCode at hfc
          rw [heq] at hfc
          simpa using hfc
        refine ⟨c, f, heq2, hfc, ?_, by simpa using h.symm⟩
        rw [← hcc]
        exact hcond
      next => exact absurd h (by simp)

lemma processLine_eq_ok {line : String} {c : String} {f : rawFields}
    (states : List climate_info) (hf : fieldsOf line = some (c, f))
    (hcond : ¬ (compareOrder states c = none ∧ NUM_STATES ≤ states.length)) :
    processLine states line = .ok (foldInto states c f) := by
  have hfc : firstCode line = some c := fieldsOf_firstCode hf
  unfold processLine
  unfold firstCode at hfc
  rw [hfc]
  dsimp only
  rw [if_neg hcond, hf]

lemma processLine_eq_capacity {line : String} {c : String}
    (states : List climate_info) (hfc : firstCode line = some c)
    (h1 : compareOrder states c = none) (h2 : NUM_STATES ≤ states.length) :
    processLine states line = .error .capacity := by
  unfold processLine
  unfold firstCode at hfc
  rw [hfc]
  dsimp only
  rw [if_pos ⟨h1, h2⟩]

/-! Section 5: analyzeLines lemmas -/

@[simp] lemma analyzeLines_nil (states : List climate_info) :
    analyzeLines states [] = .ok states := rfl

lemma analyzeLines_cons (states : List climate_info) (l : String) (ls : List String) :
    analyzeLines states (l :: ls) =
      match processLine states l with
      | .ok s' => analyzeLines s' ls
      | .error e => .error e := rfl

lemma analyzeLines_append (a b : List String) :
    ∀ states, analyzeLines states (a ++ b) =
      match analyzeLines states a with
      | .ok m => analyzeLines m b
      | .error e => .error e := by
  induction a with
  | nil => intro states; simp
  | cons l ls ih =>
    intro states
    rw [List.cons_append, analyzeLines_cons, analyzeLines_cons]
    cases h : processLine states l with
    | ok s' => exact ih s'
    | error e => rfl

lemma codes_analyzeLines (lines : List String) :
    ∀ states fin, analyzeLines states lines = .ok fin →
      codes fin = (lines.filterMap firstCode).foldl addCode (codes states) := by
  induction lines with
  | nil =>
    intro states fin h
    simp at h
    simp [h]
  | cons l ls ih =>
    intro states fin h
    rw [analyzeLines_cons] at h
    cases hp : processLine states l with
    | ok s' =>
      rw [hp] at h
      obtain ⟨c, f, hf, hfc, _, hs'⟩ := processLine_ok_elim hp
      have hfm : List.filterMap firstCode (l :: ls) = c :: List.filterMap firstCode ls := by
        simp [List.filterMap_cons, hfc]
      rw [hfm, List.foldl_cons, ih s' fin h, hs', codes_foldInto]
    | error e => rw [hp] at h; exact absurd h (by simp)

lemma wf_analyzeLines (lines : List String) :
    ∀ states fin, analyzeLines states lines = .ok fin →
      ∀ l ∈ lines, (fieldsOf l).isSome := by
  induction lines with
  | nil => intro states fin _ l hl; exact absurd hl (by simp)
  | cons l0 ls ih =>
    intro states fin h l hl
    rw [analyzeLines_cons] at h
    cases hp : processLine states l0 with
    | ok s' =>
      rw [hp] at h
      rcases List.mem_cons.mp hl with rfl | hl'
      · obtain ⟨c, f, hf, _, _, _⟩ := processLine_ok_elim hp
        simp [hf]
      · exact ih s' fin h l hl'
    | error e => rw [hp] at h; exact absurd h (by simp)

lemma entry_measure {M : Type} [AddCommMonoid M] (g : climate_info → M)
    (v : rawFields → M) (hinit : ∀ c, g (initInfo c) = 0)
    (hstep : ∀ ci f, g (foldRecord ci f) = g ci + v f)
    (lines : List String) :
    ∀ states fin c, analyzeLines states lines = .ok fin →
      (entryFor fin c).elim 0 g =
        (entryFor states c).elim 0 g +
          ((linesFor lines c).map
            (fun l => (fieldsOf l).elim 0 (fun p => v p.2))).sum := by
  induction lines with
  | nil =>
    intro states fin c h
    simp at h
    simp [h, linesFor]
  | cons l ls ih =>
    intro states fin c h
    rw [analyzeLines_cons] at h
    cases hp : processLine states l with
    | error e => rw [hp] at h; exact absurd h (by simp)
    | ok s' =>
      rw [hp] at h
      obtain ⟨c0, f, hf, hfc, _, hs'⟩ := processLine_ok_elim hp
      have hrec := ih s' fin c h
      by_cases hcc : c = c0
      · have hbeq : (firstCode l == some c) = true := by
          rw [hfc, hcc]
          simp
        have hfilter : linesFor (l :: ls) c = l :: linesFor ls c := by
          simp [linesFor, List.filter_cons, hbeq]
        rw [hfilter, List.map_cons, List.sum_cons, hrec, hs']
        subst hcc
        rw [entryFor_foldInto, if_pos rfl, hf]
        simp only [Option.elim]
        rw [hstep]
        cases hE : entryFor states c with
        | none =>
          simp [Option.getD, hinit]
          try abel
        | some b =>
          simp [Option.getD]
          try abel
      · have hbeq : (firstCode l == some c) = false := by
          rw [hfc]
          simp
          exact fun he => hcc he.symm
        have hfilter : linesFor (l :: ls) c = linesFor ls c := by
          simp [linesFor, List.filter_cons, hbeq]
        rw [hfilter, hrec, hs', entryFor_foldInto, if_neg hcc]

lemma total_measure {M : Type} [AddCommMonoid M] (g : climate_info → M)
    (v : rawFields → M) (hinit : ∀ c, g (initInfo c) = 0)
    (hstep : ∀ ci f, g (foldRecord ci f) = g ci + v f)
    (lines : List String) :
    ∀ states fin, analyzeLines states lines = .ok fin →
      (fin.map g).sum =
        (states.map g).sum +
          (lines.map (fun l => (fieldsOf l).elim 0 (fun p => v p.2))).sum := by
  induction lines with
  | nil =>
    intro states fin h
    simp at h
    simp [h]
  | cons l ls ih =>
    intro states fin h
    rw [analyzeLines_cons] at h
    cases hp : processLine states l with
    | error e => rw [hp] at h; exact absurd h (by simp)
    | ok s' =>
      rw [hp] at h
      obtain ⟨c0, f, hf, hfc, _, hs'⟩ := processLine_ok_elim hp
      rw [List.map_cons, List.sum_cons, ih s' fin h, hs']
      rw [map_sum_foldInto g v hinit hstep, hf]
      simp only [Option.elim_some]
      abel

lemma pos_records_analyzeLines (lines : List String) :
    ∀ states fin, (∀ ci ∈ states, 0 < ci.num_records) →
      analyzeLines states lines = .ok fin → ∀ ci ∈ fin, 0 < ci.num_records := by
  induction lines with
  | nil =>
    intro states fin hpos h
    simp at h
    rw [← h]
    exact hpos
  | cons l ls ih =>
    intro states fin hpos h
    rw [analyzeLines_cons] at h
    cases hp : processLine states l with
    | error e => rw [hp] at h; exact absurd h (by simp)
    | ok s' =>
      rw [hp] at h
      obtain ⟨c0, f, _, _, _, hs'⟩ := processLine_ok_elim hp
      refine ih s' fin ?_ h
      intro ci hci
      rw [hs'] at hci
      rcases mem_foldInto hci with h' | ⟨b, rfl⟩
      · exact hpos ci h'
      · simp

lemma entryFor_of_mem {s : List climate_info} (hnd : (codes s).Nodup)
    {ci : climate_info} (hci : ci ∈ s) : entryFor s ci.code = some ci := by
  induction s with
  | nil => exact absurd hci (by simp)
  | cons b rest ih =>
    rcases List.mem_cons.mp hci with rfl | h'
    · simp [entryFor]
    · have hb : ¬ b.code = ci.code := by
        intro he
        have : ci.code ∈ codes rest := List.mem_map_of_mem _ h'
        rw [← he] at this
        exact (List.nodup_cons.mp hnd).1 this
      simp only [entryFor, hb, if_false]
      exact ih (List.nodup_cons.mp hnd).2 h'

lemma nodup_codes_analyzeLines {lines : List String} {fin : List climate_info}
    (h : analyzeLines [] lines = .ok fin) : (codes fin).Nodup := by
  rw [codes_analyzeLines lines [] fin h]
  exact nodup_foldl_addCode _ [] (by simp)

/-! Section 6: chunks and mainLoop -/

lemma takeLine_fst_le (n : ℕ) : ∀ cs : List Char, (takeLine n cs).1.length ≤ n := by
  induction n with
  | zero => intro cs; cases cs <;> simp [takeLine]
  | succ n ih =>
    intro cs
    cases cs with
    | nil => simp [takeLine]
    | cons c rest =>
      by_cases h : c = '\n'
      · simp [takeLine, h]
      · simp only [takeLine, h, if_false]
        exact Nat.succ_le_succ (ih rest)

lemma chunk_length_le (fuel : ℕ) :
    ∀ cs chunk, chunk ∈ fgetsChunksF fuel cs → chunk.length ≤ line_sz - 1 := by
  induction fuel with
  | zero => intro cs chunk h; exact absurd h (by simp [fgetsChunksF])
  | succ fuel ih =>
    intro cs chunk h
    cases cs with
    | nil => exact absurd h (by simp [fgetsChunksF])
    | cons c rest =>
      rw [fgetsChunksF] at h
      rcases List.mem_cons.mp h with rfl | h'
      · exact takeLine_fst_le _ _
      · exact ih _ chunk h'

lemma mainLoop_run (files : List (Option String)) :
    ∀ states idx, (mainLoop states idx files).2 = analyzeLines states (inputLines files) := by
  induction files with
  | nil => intro states idx; simp [mainLoop, inputLines]
  | cons fo rest ih =>
    intro states idx
    cases fo with
    | none => simpa [mainLoop, inputLines] using ih states (idx + 1)
    | some content =>
      rw [show inputLines (some content :: rest) = chunkLines content ++ inputLines rest from rfl]
      rw [analyzeLines_append]
      show (match analyze_file states content with
        | .ok s' => mainLoop s' (idx + 1) rest
        | .error e => ([], .error e)).2 = _
      unfold analyze_file
      cases h : analyzeLines states (chunkLines content) with
      | ok s' => exact ih s' (idx + 1)
      | error e => rfl

lemma mainLoop_log (files : List (Option String)) :
    ∀ states idx fin, (mainLoop states idx files).2 = .ok fin →
      (mainLoop states idx files).1 = badIdxFrom idx files := by
  induction files with
  | nil => intro states idx fin _; rfl
  | cons fo rest ih =>
    intro states idx fin h
    cases fo with
    | none =>
      show idx :: (mainLoop states (idx + 1) rest).1 = idx :: badIdxFrom (idx + 1) rest
      have h' : (mainLoop states (idx + 1) rest).2 = .ok fin := h
      rw [ih states (idx + 1) fin h']
    | some content =>
      show (match analyze_file states content with
        | .ok s' => mainLoop s' (idx + 1) rest
        | .error e => ([], .error e)).1 = badIdxFrom (idx + 1) rest
      have h2 : (match analyze_file states content with
        | .ok s' => mainLoop s' (idx + 1) rest
        | .error e => ([], .error e)).2 = .ok fin := h
      cases ha : analyze_file states content with
      | ok s' =>
        rw [ha] at h2
        exact ih s' (idx + 1) fin h2
      | error e =>
        rw [ha] at h2
        exact absurd h2 (by simp)

/-! Section 7: capacity helpers and counting helpers -/

lemma processLine_capacity_elim {states : List climate_info} {line : String}
    (h : processLine states line = .error .capacity) :
    ∃ c, firstCode line = some c ∧ c ∉ codes states ∧ NUM_STATES ≤ states.length := by
  unfold processLine at h
  split at h
  next => simp at h
  next codex heq =>
    split at h
    next hcond =>
      exact ⟨codex, heq, (compareOrder_eq_none _ _).mp hcond.1, hcond.2⟩
    next =>
      split at h
      next => simp at h
      next => simp at h

lemma capacity_of_many (lines : List String) :
    ∀ states, (∀ l ∈ lines, (fieldsOf l).isSome) →
      (codes states).Nodup → states.length ≤ NUM_STATES →
      NUM_STATES + 1 ≤ ((lines.filterMap firstCode).foldl addCode (codes states)).length →
      analyzeLines states lines = .error .capacity := by
  induction lines with
  | nil =>
    intro states _ _ hlen hmany
    simp at hmany
    omega
  | cons l ls ih =>
    intro states hwf hnd hlen hmany
    have hsome : (fieldsOf l).isSome := hwf l (by simp)
    obtain ⟨⟨c, f⟩, hf⟩ := Option.isSome_iff_exists.mp hsome
    have hfc : firstCode l = some c := fieldsOf_firstCode hf
    have hfm : List.filterMap firstCode (l :: ls) =
        c :: List.filterMap firstCode ls := by
      simp [List.filterMap_cons, hfc]
    by_cases hcap : c ∉ codes states ∧ NUM_STATES ≤ states.length
    · rw [analyzeLines_cons,
        processLine_eq_capacity states hfc ((compareOrder_eq_none _ _).mpr hcap.1) hcap.2]
    · have hcond : ¬ (compareOrder states c = none ∧ NUM_STATES ≤ states.length) := by
        rw [compareOrder_eq_none]
        tauto
      have hp := processLine_eq_ok states hf hcond
      rw [analyzeLines_cons, hp]
      have hgoal : NUM_STATES + 1 ≤
          ((ls.filterMap firstCode).foldl addCode (codes (foldInto states c f))).length := by
        rw [codes_foldInto]
        rw [hfm, List.foldl_cons] at hmany
        exact hmany
      have hlen' : (foldInto states c f).length ≤ NUM_STATES := by
        have hL : (foldInto states c f).length = (addCode (codes states) c).length := by
          rw [← codes_length, codes_foldInto]
        by_cases hmem : c ∈ codes states
        · rw [hL, length_addCode_of_mem hmem, codes_length]
          exact hlen
        · have hnot : ¬ NUM_STATES ≤ states.length := fun hge => hcap ⟨hmem, hge⟩
          rw [hL, length_addCode_of_not_mem hmem, codes_length]
          omega
      exact ih (foldInto states c f)
        (fun l' hl' => hwf l' (List.mem_cons_of_mem _ hl'))
        (codes_foldInto states c f ▸ nodup_addCode hnd c) hlen' hgoal

lemma many_of_capacity (lines : List String) :
    ∀ states, analyzeLines states lines = .error .capacity →
      NUM_STATES + 1 ≤ ((lines.filterMap firstCode).foldl addCode (codes states)).length := by
  induction lines with
  | nil => intro states h; simp at h
  | cons l ls ih =>
    intro states h
    rw [analyzeLines_cons] at h
    cases hp : processLine states l with
    | ok s' =>
      rw [hp] at h
      obtain ⟨c, f, hf, hfc, _, hs'⟩ := processLine_ok_elim hp
      have hfm : List.filterMap firstCode (l :: ls) =
          c :: List.filterMap firstCode ls := by
        simp [List.filterMap_cons, hfc]
      rw [hfm, List.foldl_cons]
      have hrec := ih s' h
      rwa [hs', codes_foldInto] at hrec
    | error e =>
      rw [hp] at h
      have he : e = .capacity := by simpa using h
      subst he
      obtain ⟨c, hfc, hnm, hge⟩ := processLine_capacity_elim hp
      have hfm : List.filterMap firstCode (l :: ls) =
          c :: List.filterMap firstCode ls := by
        simp [List.filterMap_cons, hfc]
      rw [hfm, List.foldl_cons]
      have h1 : (addCode (codes states) c).length = states.length + 1 := by
        rw [length_addCode_of_not_mem hnm, codes_length]
      have h2 := le_length_foldl_addCode (List.filterMap firstCode ls)
        (addCode (codes states) c)
      omega

lemma sum_ones_of_wf (lines : List String)
    (h : ∀ l ∈ lines, (fieldsOf l).isSome) :
    (lines.map (fun l => (fieldsOf l).elim 0 (fun _ => (1 : ℕ)))).sum = lines.length := by
  induction lines with
  | nil => rfl
  | cons l ls ih =>
    obtain ⟨p, hp⟩ := Option.isSome_iff_exists.mp (h l (by simp))
    simp [hp, ih (fun l' hl' => h l' (by simp [hl']))]
    omega

lemma mem_linesFor {l : String} {lines : List String} {c : String}
    (h : l ∈ linesFor lines c) : l ∈ lines :=
  List.mem_of_mem_filter h

/-! Claim theorems -/

/-- C1: contrary to the claim, a state with exactly one parsed record keeps
both extremum sentinels: for the single TN record with temperature 290 the
final minimum is -9999 and the final maximum is 9999, neither equal to the
record temperature, because the sentinels are initialized on the wrong
sides (minTemp = -9999, maxTemp = 9999) so both comparisons fail. -/
theorem c1_single_record_keeps_sentinels :
    ∃ a, analyzeLines [] [tnLine] = .ok [a] ∧ a.code = "TN" ∧
      a.num_records = 1 ∧ a.temperature = 290 ∧
      a.minTemp = -9999 ∧ a.maxTemp = 9999 ∧ ¬ a.minTemp = a.maxTemp := by
  refine ⟨_, rfl, ?_, ?_, ?_, ?_, ?_, ?_⟩ <;> decide

/-- C2: contrary to the claim, the very first record for a state updates
neither extremum and records no timestamp: for a first WA record with
temperature 300 and timestamp 2000, both extremum timestamps stay 0 and the
extrema stay at the sentinels. -/
theorem c2_first_record_updates_no_extremum :
    ∃ a, analyzeLines [] [waLine] = .ok [a] ∧ a.code = "WA" ∧
      a.num_records = 1 ∧ a.temperature = 300 ∧
      a.minTemp = -9999 ∧ a.maxTemp = 9999 ∧
      a.minTempTimestamp = 0 ∧ a.maxTempTimestamp = 0 := by
  refine ⟨_, rfl, ?_, ?_, ?_, ?_, ?_, ?_, ?_⟩ <;> decide

/-- C3: in a completed run the recordCounts over all accumulators sum to
the number of lines processed, and each accumulator's recordCount is the
number of lines carrying its state code. -/
theorem c3_record_count_conservation (lines : List String)
    (fin : List climate_info) (h : analyzeLines [] lines = .ok fin) :
    (fin.map climate_info.num_records).sum = lines.length ∧
    ∀ ci ∈ fin, ci.num_records = (linesFor lines ci.code).length := by
  have hwf := wf_analyzeLines lines [] fin h
  constructor
  · have ht := total_measure (fun ci => ci.num_records) (fun _ => 1)
      (fun _ => rfl) (fun _ _ => rfl) lines [] fin h
    simpa [sum_ones_of_wf lines hwf] using ht
  · intro ci hci
    have hnd := nodup_codes_analyzeLines h
    have hE := entryFor_of_mem hnd hci
    have hm := entry_measure (fun ci => ci.num_records) (fun _ => 1)
      (fun _ => rfl) (fun _ _ => rfl) lines [] fin ci.code h
    rw [hE] at hm
    simp only [entryFor, Option.elim_none, Option.elim_some] at hm
    have hwf' : ∀ l ∈ linesFor lines ci.code, (fieldsOf l).isSome :=
      fun l hl => hwf l (mem_linesFor hl)
    rw [sum_ones_of_wf _ hwf'] at hm
    simpa using hm

/-- C3 witness: on the concrete three-line stream the counts sum to 3 and
the TN accumulator counts its two TN lines. -/
theorem c3_witness :
    (c3exTable.map climate_info.num_records).sum = c3exLines.length ∧
    c3exEntry.num_records = (linesFor c3exLines c3exEntry.code).length :=
  ⟨(c3_record_count_conservation c3exLines c3exTable (by decide)).1,
   (c3_record_count_conservation c3exLines c3exTable (by decide)).2
     c3exEntry (by decide)⟩

/-- C4: the report lists states in first-seen insertion order, both in the
States found line and in the per-state blocks. -/
theorem c4_report_order_first_seen (files : List (Option String))
    (fin : List climate_info) (h : (runMain files).2 = .ok fin) :
    (print_report fin).1 = distinctCodes (inputLines files) ∧
    (print_report fin).2.map stateReport.code = distinctCodes (inputLines files) := by
  have hrm : analyzeLines [] (inputLines files) = .ok fin := by
    rw [← mainLoop_run files [] 1]
    exact h
  have hcodes := codes_analyzeLines (inputLines files) [] fin hrm
  constructor
  · show codes fin = _
    rw [hcodes]
    rfl
  · show (fin.map reportOf).map stateReport.code = _
    rw [List.map_map]
    show codes fin = _
    rw [hcodes]
    rfl

/-- C4 witness: feeding lines for codes in order WA, TN, WA yields output
order WA, TN. -/
theorem c4_witness : (print_report c4table).1 = ["WA", "TN"] := by
  have h := (c4_report_order_first_seen c4files c4table (by decide)).1
  rw [h]
  decide

/-- C5: each accumulator reaching the report carries running sums (the
humidity and temperature fields are the sums of its lines' values), and
the report divides those sums by recordCount at print time, converting
temperature by *1.8 - 459.67. -/
theorem c5_averages_from_sums (lines : List String)
    (fin : List climate_info) (h : analyzeLines [] lines = .ok fin) :
    ∀ ci ∈ fin,
      ci.avgHumidity = ((linesFor lines ci.code).map lineHum).sum ∧
      ci.temperature = ((linesFor lines ci.code).map lineTemp).sum ∧
      (reportOf ci).avgHumidity =
        ((linesFor lines ci.code).map lineHum).sum / (ci.num_records : ℚ) ∧
      (reportOf ci).avgTemperature =
        ((linesFor lines ci.code).map lineTemp).sum / (ci.num_records : ℚ)
          * (1.8 : ℚ) - (459.67 : ℚ) := by
  intro ci hci
  have hnd := nodup_codes_analyzeLines h
  have hE := entryFor_of_mem hnd hci
  have h1 := entry_measure (fun ci => ci.avgHumidity) (fun f => atofQ f.hum)
    (fun _ => rfl) (fun ci f => foldRecord_avgHumidity ci f) lines [] fin ci.code h
  have h2 := entry_measure (fun ci => ci.temperature) (fun f => atofQ f.te)
    (fun _ => rfl) (fun ci f => foldRecord_temperature ci f) lines [] fin ci.code h
  rw [hE] at h1 h2
  simp only [entryFor, Option.elim_none, Option.elim_some, zero_add] at h1 h2
  have e1 : ci.avgHumidity = ((linesFor lines ci.code).map lineHum).sum := by
    simpa [lineHum] using h1
  have e2 : ci.temperature = ((linesFor lines ci.code).map lineTemp).sum := by
    simpa [lineTemp] using h2
  refine ⟨e1, e2, ?_, ?_⟩
  · show ci.avgHumidity / (ci.num_records : ℚ) = _
    rw [e1]
  · show ci.temperature / (ci.num_records : ℚ) * (1.8 : ℚ) - (459.67 : ℚ) = _
    rw [e2]

/-- C5 witness: the concrete TN accumulator of the three-line run. -/
theorem c5_witness :
    c3exEntry.avgHumidity = ((linesFor c3exLines c3exEntry.code).map lineHum).sum ∧
    c3exEntry.temperature = ((linesFor c3exLines c3exEntry.code).map lineTemp).sum ∧
    (reportOf c3exEntry).avgHumidity =
      ((linesFor c3exLines c3exEntry.code).map lineHum).sum / (c3exEntry.num_records : ℚ) ∧
    (reportOf c3exEntry).avgTemperature =
      ((linesFor c3exLines c3exEntry.code).map lineTemp).sum / (c3exEntry.num_records : ℚ)
        * (1.8 : ℚ) - (459.67 : ℚ) :=
  c5_averages_from_sums c3exLines c3exTable (by decide) c3exEntry (by decide)

/-- C6: a run whose (well-formed) lines carry 51 or more distinct state
codes exits with the capacity error, and a run whose lines carry at most 50
distinct codes never takes the capacity branch. -/
theorem c6_capacity_abort (lines : List String) :
    ((∀ l ∈ lines, (fieldsOf l).isSome) →
      NUM_STATES + 1 ≤ (distinctCodes lines).length →
      analyzeLines [] lines = .error .capacity) ∧
    ((distinctCodes lines).length ≤ NUM_STATES →
      analyzeLines [] lines ≠ .error .capacity) := by
  constructor
  · intro hwf hmany
    exact capacity_of_many lines [] hwf (by simp) (by simp [NUM_STATES]) hmany
  · intro hle hcap
    have hmany := many_of_capacity lines [] hcap
    have hd : distinctCodes lines =
        (lines.filterMap firstCode).foldl addCode (codes []) := rfl
    rw [hd] at hle
    omega

/-- C6 witness: 51 distinct codes abort the run; three lines with two
distinct codes do not. -/
theorem c6_witness :
    analyzeLines [] big51 = .error .capacity ∧
    analyzeLines [] c3exLines ≠ .error .capacity :=
  ⟨(c6_capacity_abort big51).1 (by decide) (by decide),
   (c6_capacity_abort c3exLines).2 (by decide)⟩

/-- C7: contrary to the claim, a line with only five tab-separated fields
is not skipped: strtok runs out of tokens, the NULL dereference kills the
whole run, and a following well-formed WA line is never aggregated. -/
theorem c7_short_line_kills_run :
    fieldsOf shortLine = none ∧
    analyzeLines [] [shortLine, waLine] = .error .nullField := by
  constructor <;> decide

/-- C8: in a completed run the reported indices are exactly the unopenable
files' argument positions, and the final table is the table of the openable
files' lines alone, in argument order. -/
theorem c8_unopenable_files_skipped (files : List (Option String))
    (fin : List climate_info) (h : (runMain files).2 = .ok fin) :
    (runMain files).1 = badIndices files ∧
    analyzeLines [] (inputLines files) = .ok fin := by
  constructor
  · exact mainLoop_log files [] 1 fin h
  · rw [← mainLoop_run files [] 1]
    exact h

/-- C8 witness: an unopenable second file is reported as index 2 and the
first and third files are still aggregated. -/
theorem c8_witness :
    (runMain c8files).1 = badIndices c8files ∧
    analyzeLines [] (inputLines c8files) = .ok c8table :=
  c8_unopenable_files_skipped c8files c8table (by decide)

/-- C9: every accumulator of a completed run has a positive recordCount,
so the report-time divisions divide by a nonzero denominator. -/
theorem c9_accumulators_positive (files : List (Option String))
    (fin : List climate_info) (h : (runMain files).2 = .ok fin) :
    ∀ ci ∈ fin, 0 < ci.num_records ∧
      (reportOf ci).avgHumidity * (ci.num_records : ℚ) = ci.avgHumidity := by
  have hrm : analyzeLines [] (inputLines files) = .ok fin := by
    rw [← mainLoop_run files [] 1]
    exact h
  intro ci hci
  have hpos := pos_records_analyzeLines (inputLines files) [] fin
    (by simp) hrm ci hci
  refine ⟨hpos, ?_⟩
  show ci.avgHumidity / (ci.num_records : ℚ) * (ci.num_records : ℚ) = ci.avgHumidity
  have hne : (ci.num_records : ℚ) ≠ 0 := by
    exact_mod_cast Nat.pos_iff_ne_zero.mp hpos
  field_simp

/-- C9 witness: the TN accumulator of the concrete run has count 1 > 0. -/
theorem c9_witness :
    0 < c9entry.num_records ∧
    (reportOf c9entry).avgHumidity * (c9entry.num_records : ℚ) = c9entry.avgHumidity :=
  c9_accumulators_positive c9files c9table (by decide) c9entry (by decide)

/-- C10 counterexample: a 100-character physical line (newline included)
whose second fgets chunk is the bare newline is not folded as multiple
records: the second chunk has no token and the run dies on the NULL
dereference. -/
theorem c10_counterexample :
    longBadLine.length = 100 ∧
    longBadLine.toList.count '\n' = 1 ∧
    longBadLine.toList.getLast? = some '\n' ∧
    analyze_file [] longBadLine = .error .nullField := by
  refine ⟨?_, ?_, ?_, ?_⟩ <;> decide

/-- C10 amended: fgets reads any stream in chunks of at most 99
characters, analyze_file runs every chunk (first and later alike) through
the same per-line processing, and a long line is folded as multiple
records exactly when each chunk itself parses: the concrete 126-character
single-newline line splits into two chunks and yields two records, AB from
the first chunk and CD from the second chunk's leading characters. -/
theorem c10_long_lines_chunked :
    (∀ cs : List Char, ∀ chunk ∈ fgetsChunks cs, chunk.length ≤ line_sz - 1) ∧
    (∀ content : String, analyze_file [] content =
      analyzeLines [] ((fgetsChunks content.toList).map (fun l => String.mk l))) ∧
    (100 ≤ longGoodLine.length ∧ longGoodLine.toList.count '\n' = 1 ∧
      (fgetsChunks longGoodLine.toList).length = 2 ∧
      ∃ a b, analyze_file [] longGoodLine = .ok [a, b] ∧ a.code = "AB" ∧
        b.code = "CD" ∧ a.num_records = 1 ∧ b.num_records = 1) := by
  refine ⟨fun cs chunk h => chunk_length_le _ _ chunk h, fun _ => rfl,
    ?_, ?_, ?_, ?_⟩
  · decide
  · decide
  · decide
  · exact ⟨c10a, c10b, by decide, by decide, by decide, by decide, by decide⟩

/-- C10 witness: the first chunk of the concrete long line observes the
99-character bound. -/
theorem c10_witness :
    ((fgetsChunks longGoodLine.toList).headD []).length ≤ line_sz - 1 :=
  c10_long_lines_chunked.1 longGoodLine.toList _ (by decide)

end Climate
